import Mathlib

/-!
Shallow embedding of `src/kapp.rs` (kennoath/cata): the per-frame input
event-accumulation / snapshot / reset core.

Modelling conventions:
  * `f32` values (positions, scroll, time) are modelled as `ℚ`;
  * `u32` values (`frame`, `seed`) are `ℕ` taken modulo `2^32` where the
    source performs wrapping arithmetic;
  * `HashSet<VirtualKeyCode>` is `Finset ℕ` (key codes as naturals);
  * wall-clock reads (`Instant::now`, `SystemTime::now`) are passed in as
    explicit parameters (`dt`, `clockNanos`);
  * external side effects on the window / GL context / audio device carry no
    state the claims mention and are dropped.
-/

namespace Kapp

/-- The `KeyStatus` enum of kapp.rs. -/
inductive KeyStatus
  | Pressed
  | JustPressed
  | JustReleased
  | Released
deriving DecidableEq, Repr

/-- Modelled from the spec: `Rect` comes from `kmath.rs`, which is not among
the provided sources. Per the spec it is an axis-aligned rectangle with an
origin and a size; `Rect::new(x, y, w, h)` is its constructor. -/
structure Rect where
  x : ℚ
  y : ℚ
  w : ℚ
  h : ℚ
deriving DecidableEq, Repr

def Rect.new (x y w h : ℚ) : Rect := ⟨x, y, w, h⟩

/-- Modelled from the spec: `Vec2` comes from `kmath.rs`, which is not among
the provided sources. Per the spec it is a 2-d vector of coordinates with
componentwise subtraction (used for `mouse_delta`). -/
structure Vec2 where
  x : ℚ
  y : ℚ
deriving DecidableEq, Repr

def Vec2.new (x y : ℚ) : Vec2 := ⟨x, y⟩

def Vec2.zero : Vec2 := ⟨0, 0⟩

def Vec2.sub (a b : Vec2) : Vec2 := ⟨a.x - b.x, a.y - b.y⟩

/-- The `FrameInputs` struct of kapp.rs. -/
structure FrameInputs where
  screen_rect : Rect
  mouse_pos : Vec2
  mouse_delta : Vec2
  prev_keys : Finset ℕ
  curr_keys : Finset ℕ
  repeat_keys : Finset ℕ
  lmb : KeyStatus
  rmb : KeyStatus
  mmb : KeyStatus
  scroll_delta : ℚ
  t : ℚ
  dt : ℚ
  frame : ℕ
  seed : ℕ
deriving DecidableEq

/-- `FrameInputs::key_held`. -/
def FrameInputs.key_held (s : FrameInputs) (keycode : ℕ) : Bool :=
  decide (keycode ∈ s.curr_keys)

/-- `FrameInputs::key_pressed`. -/
def FrameInputs.key_pressed (s : FrameInputs) (keycode : ℕ) : Bool :=
  decide (keycode ∈ s.curr_keys) && !decide (keycode ∈ s.prev_keys)

/-- `FrameInputs::key_pressed_or_repeating`. -/
def FrameInputs.key_pressed_or_repeating (s : FrameInputs) (keycode : ℕ) : Bool :=
  (decide (keycode ∈ s.curr_keys) && !decide (keycode ∈ s.prev_keys))
    || decide (keycode ∈ s.repeat_keys)

/-- `FrameInputs::key_released`. -/
def FrameInputs.key_released (s : FrameInputs) (keycode : ℕ) : Bool :=
  !decide (keycode ∈ s.curr_keys) && decide (keycode ∈ s.prev_keys)

/-- `Duration::subsec_nanos` of a duration given as total nanoseconds. -/
def subsecNanos (totalNanos : ℕ) : ℕ := totalNanos % 1000000000

/-- `FrameInputs::new(a)`.  The source reads
`SystemTime::now().duration_since(UNIX_EPOCH)` for the initial seed; that
fallible clock read is passed in as `clockNanos` (`none` models the `Err`
case of `duration_since`, `some n` a duration of `n` nanoseconds), and
`unwrap_or(Duration::from_nanos(34123123))` becomes `Option.getD`. -/
def FrameInputs.new (a : ℚ) (clockNanos : Option ℕ) : FrameInputs where
  screen_rect := Rect.new 0 0 a 1
  mouse_pos := Vec2.new 0 0
  mouse_delta := Vec2.new 0 0
  scroll_delta := 0
  curr_keys := ∅
  prev_keys := ∅
  repeat_keys := ∅
  lmb := KeyStatus.Released
  rmb := KeyStatus.Released
  mmb := KeyStatus.Released
  t := 0
  dt := 0
  frame := 0
  seed := subsecNanos (clockNanos.getD 34123123)

/-- The three pointer buttons kapp.rs tracks (`glutin::event::MouseButton`
restricted to the matched variants). -/
inductive MouseButton
  | Left
  | Middle
  | Right
deriving DecidableEq, Repr

/-- `glutin::event::MouseScrollDelta`: the two raw scroll encodings. -/
inductive MouseScrollDelta
  | LineDelta (x y : ℚ)
  | PixelDelta (x y : ℚ)
deriving DecidableEq, Repr

/-- The window events kapp.rs's inner `match event` dispatches on.
`KeyboardInput` carries the `Option`al resolved virtual key code (a `None`
code falls through to the wildcard arm in the source, hence `Other` also
covers it only conceptually; we keep the `Option` to model that arm
faithfully). `Other` stands for every unmatched event kind (`_ => {}`). -/
inductive WindowEvent
  | KeyboardInput (virtual_keycode : Option ℕ) (pressed : Bool)
  | MouseInput (button : MouseButton) (pressed : Bool)
  | MouseWheel (delta : MouseScrollDelta)
  | CursorMoved (px py : ℚ)
  | Resized (width height : ℚ)
  | Other
deriving DecidableEq, Repr

/-- The `Application` state kapp.rs mutates: the video resolution (the only
fields of `Video` the input core reads or writes), the raw latest pointer
position and the live `FrameInputs` accumulation state.  `t_last` is not
carried: the wall-clock difference it produces enters `mainEventsCleared`
as the explicit `dt` parameter.  `root_scene` and `audio` are external
collaborators with no bearing on the input state. -/
structure Application where
  xres : ℚ
  yres : ℚ
  instant_mouse_pos : Vec2
  current : FrameInputs
deriving DecidableEq

/-- `Application::new`: xres = yres = 1600, instant pointer at zero, and
`FrameInputs::new(xres/yres)` with the fallible clock read passed through. -/
def Application.new (clockNanos : Option ℕ) : Application where
  xres := 1600
  yres := 1600
  instant_mouse_pos := Vec2.zero
  current := FrameInputs.new (1600 / 1600) clockNanos

/-- The `Event::WindowEvent` arm of `Application::handle_event`: folds one
raw window event into the accumulation state (kapp.rs lines 137–206).
`CloseRequested` / `LoopDestroyed` terminate the process and are outside
this embedding. -/
def handleWindowEvent (app : Application) (e : WindowEvent) : Application :=
  match e with
  | WindowEvent.KeyboardInput (some virtual_code) pressed =>
      if pressed then
        if virtual_code ∈ app.current.curr_keys then
          { app with current :=
              { app.current with
                  repeat_keys := insert virtual_code app.current.repeat_keys } }
        else
          { app with current :=
              { app.current with
                  curr_keys := insert virtual_code app.current.curr_keys } }
      else
        { app with current :=
            { app.current with
                curr_keys := app.current.curr_keys.erase virtual_code } }
  | WindowEvent.KeyboardInput none _ => app
  | WindowEvent.MouseInput MouseButton.Left pressed =>
      { app with current :=
          { app.current with
              lmb := if pressed then KeyStatus.JustPressed else KeyStatus.JustReleased } }
  | WindowEvent.MouseInput MouseButton.Middle pressed =>
      { app with current :=
          { app.current with
              mmb := if pressed then KeyStatus.JustPressed else KeyStatus.JustReleased } }
  | WindowEvent.MouseInput MouseButton.Right pressed =>
      { app with current :=
          { app.current with
              rmb := if pressed then KeyStatus.JustPressed else KeyStatus.JustReleased } }
  | WindowEvent.MouseWheel (MouseScrollDelta.LineDelta _ y) =>
      { app with current := { app.current with scroll_delta := y } }
  | WindowEvent.MouseWheel (MouseScrollDelta.PixelDelta _ py) =>
      { app with current := { app.current with scroll_delta := py } }
  | WindowEvent.CursorMoved px py =>
      { app with instant_mouse_pos :=
          Vec2.new (px / app.yres) (py / app.yres) }
  | WindowEvent.Resized width height =>
      { app with
          xres := width
          yres := height
          current :=
            { app.current with screen_rect := Rect.new 0 0 (width / height) 1 } }
  | WindowEvent.Other => app

/-- Folding a whole accumulation period's event list, in arrival order. -/
def absorbAll (app : Application) (es : List WindowEvent) : Application :=
  es.foldl handleWindowEvent app

/-- Wrapping `u32` modulus. -/
def u32Mod : ℕ := 4294967296

/-- Modelled from the spec: `khash` lives in `kmath.rs`, which is not among
the provided sources.  Section 4.1 of the spec describes the per-frame seed
advance as a pure deterministic mixing function, a constant multiplicative
hash step on a 32-bit value, so it is modelled as one wrapping
multiplication by an odd constant. -/
def khash (x : ℕ) : ℕ := (x * 2654435769) % u32Mod

/-- The seed advance kapp.rs performs each frame boundary:
`khash(self.current.seed * 196513497)` with wrapping `u32` multiplication. -/
def nextSeed (seed : ℕ) : ℕ := khash ((seed * 196513497) % u32Mod)

/-- The per-button collapse the frame boundary performs (kapp.rs lines
221–223, written inline there as the same `match` once per button):
`JustPressed | Pressed => Pressed`, `JustReleased | Released => Released`. -/
def collapse : KeyStatus → KeyStatus
  | KeyStatus.JustPressed => KeyStatus.Pressed
  | KeyStatus.Pressed => KeyStatus.Pressed
  | KeyStatus.JustReleased => KeyStatus.Released
  | KeyStatus.Released => KeyStatus.Released

/-- The `Event::MainEventsCleared` arm of `Application::handle_event`
(kapp.rs lines 207–231): the frame boundary.  `dt` is the wall-clock
elapsed seconds since the previous boundary (`t_now - t_last`).  Returns
the frozen snapshot (`state`, the clone taken at line 216) and the
application state ready for the next accumulation period.  The render /
audio dispatch on the snapshot is external and dropped. -/
def mainEventsCleared (app : Application) (dt : ℚ) : FrameInputs × Application :=
  let c1 : FrameInputs :=
    { app.current with
        dt := dt
        t := app.current.t + dt
        frame := (app.current.frame + 1) % u32Mod
        mouse_delta := Vec2.sub app.instant_mouse_pos app.current.mouse_pos
        mouse_pos := app.instant_mouse_pos }
  let state : FrameInputs := c1
  let c2 : FrameInputs :=
    { c1 with
        prev_keys := c1.curr_keys
        repeat_keys := ∅
        seed := nextSeed c1.seed
        scroll_delta := 0
        lmb := collapse c1.lmb
        mmb := collapse c1.mmb
        rmb := collapse c1.rmb }
  (state, { app with current := c2 })

/-- One whole accumulation period: absorb the period's events, then the
frame boundary with that boundary's `dt`. -/
def runPeriod (app : Application) (p : List WindowEvent × ℚ) :
    FrameInputs × Application :=
  mainEventsCleared (absorbAll app p.1) p.2

/-- The application state after a sequence of accumulation periods. -/
def runPeriods (app : Application) : List (List WindowEvent × ℚ) → Application
  | [] => app
  | p :: ps => runPeriods (runPeriod app p).2 ps

/-- The snapshots a sequence of accumulation periods produces, in order. -/
def snapshots (app : Application) : List (List WindowEvent × ℚ) → List FrameInputs
  | [] => []
  | p :: ps => (runPeriod app p).1 :: snapshots (runPeriod app p).2 ps

/-- The status slot of a pointer button in a `FrameInputs` value. -/
def buttonStatus (b : MouseButton) (s : FrameInputs) : KeyStatus :=
  match b with
  | MouseButton.Left => s.lmb
  | MouseButton.Middle => s.mmb
  | MouseButton.Right => s.rmb

/-- The press/release payload of an event when it is a `MouseInput` event
for button `b`, else `none`. -/
def buttonEv (b : MouseButton) : WindowEvent → Option Bool
  | WindowEvent.MouseInput b2 pressed => if b2 = b then some pressed else none
  | _ => none

/-- The payload of the last `MouseInput` event for button `b` in a period's
event list, else `none`. -/
def lastButtonEvent (b : MouseButton) : List WindowEvent → Option Bool
  | [] => none
  | e :: es =>
      match lastButtonEvent b es with
      | some pressed => some pressed
      | none => buttonEv b e

/-- The vertical scroll payload of an event when it is a `MouseWheel` event
(either encoding), else `none`. -/
def scrollEv : WindowEvent → Option ℚ
  | WindowEvent.MouseWheel (MouseScrollDelta.LineDelta _ y) => some y
  | WindowEvent.MouseWheel (MouseScrollDelta.PixelDelta _ py) => some py
  | _ => none

/-- The vertical payload of the last `MouseWheel` event in a period's event
list, else `none`. -/
def lastScrollEvent : List WindowEvent → Option ℚ
  | [] => none
  | e :: es =>
      match lastScrollEvent es with
      | some y => some y
      | none => scrollEv e

/-- The screen-rect invariant of the spec: origin (0,0), height 1, width the
live aspect ratio. -/
def screenRectOk (app : Application) : Prop :=
  app.current.screen_rect.x = 0 ∧ app.current.screen_rect.y = 0 ∧
    app.current.screen_rect.h = 1 ∧
    app.current.screen_rect.w = app.xres / app.yres

/-- A concrete startup state, used by the closed instantiations below. -/
def app0 : Application := Application.new (some 0)

/-- `app0` right after absorbing a left-button press. -/
def appJP : Application :=
  handleWindowEvent app0 (WindowEvent.MouseInput MouseButton.Left true)

/-- `app0` right after absorbing a left-button release. -/
def appJR : Application :=
  handleWindowEvent app0 (WindowEvent.MouseInput MouseButton.Left false)

/-! ## Basic unfolding lemmas -/

theorem absorbAll_nil (app : Application) : absorbAll app [] = app := rfl

theorem absorbAll_cons (app : Application) (e : WindowEvent)
    (es : List WindowEvent) :
    absorbAll app (e :: es) = absorbAll (handleWindowEvent app e) es := rfl

theorem absorbAll_append (app : Application) (es fs : List WindowEvent) :
    absorbAll app (es ++ fs) = absorbAll (absorbAll app es) fs := by
  simp [absorbAll, List.foldl_append]

/-! ## Pointer-button master lemmas -/

theorem buttonStatus_handleWindowEvent (b : MouseButton) (app : Application)
    (e : WindowEvent) :
    buttonStatus b (handleWindowEvent app e).current =
      match buttonEv b e with
      | some pressed =>
          if pressed then KeyStatus.JustPressed else KeyStatus.JustReleased
      | none => buttonStatus b app.current := by
  cases e with
  | KeyboardInput c pressed =>
      cases c with
      | none => rfl
      | some code =>
          by_cases h : code ∈ app.current.curr_keys <;>
            cases pressed <;>
              simp [handleWindowEvent, buttonEv, h] <;> cases b <;> rfl
  | MouseInput b2 pressed =>
      cases b2 <;> cases b <;>
        simp [handleWindowEvent, buttonEv, buttonStatus]
  | MouseWheel d => cases d <;> cases b <;> rfl
  | CursorMoved px py => cases b <;> rfl
  | Resized w h => cases b <;> rfl
  | Other => cases b <;> rfl

theorem buttonStatus_absorbAll (b : MouseButton) (app : Application)
    (es : List WindowEvent) :
    buttonStatus b (absorbAll app es).current =
      match lastButtonEvent b es with
      | some pressed =>
          if pressed then KeyStatus.JustPressed else KeyStatus.JustReleased
      | none => buttonStatus b app.current := by
  induction es generalizing app with
  | nil => rfl
  | cons e es ih =>
      rw [absorbAll_cons, ih]
      cases hl : lastButtonEvent b es with
      | some pressed => simp [lastButtonEvent, hl]
      | none => simp [lastButtonEvent, hl, buttonStatus_handleWindowEvent]

theorem lastButtonEvent_eq_none (b : MouseButton) (es : List WindowEvent)
    (h : ∀ e ∈ es, buttonEv b e = none) : lastButtonEvent b es = none := by
  induction es with
  | nil => rfl
  | cons e es ih =>
      have h1 : buttonEv b e = none := h e (List.mem_cons_self e es)
      have h2 : lastButtonEvent b es = none :=
        ih fun x hx => h x (List.mem_cons_of_mem e hx)
      simp [lastButtonEvent, h1, h2]

theorem lastButtonEvent_eq_some (b : MouseButton) (es : List WindowEvent)
    (pressed : Bool) (h : lastButtonEvent b es = some pressed) :
    ∃ e ∈ es, buttonEv b e = some pressed := by
  induction es with
  | nil => simp [lastButtonEvent] at h
  | cons e es ih =>
      rw [lastButtonEvent] at h
      cases hl : lastButtonEvent b es with
      | some p =>
          rw [hl] at h
          obtain ⟨x, hx, hbx⟩ := ih (hl.trans h)
          exact ⟨x, List.mem_cons_of_mem e hx, hbx⟩
      | none =>
          rw [hl] at h
          exact ⟨e, List.mem_cons_self e es, h⟩

theorem buttonEv_eq_some (b : MouseButton) (e : WindowEvent) (pressed : Bool)
    (h : buttonEv b e = some pressed) :
    e = WindowEvent.MouseInput b pressed := by
  cases e <;> simp [buttonEv] at h
  case MouseInput b2 p =>
    rcases h with ⟨hb, hp⟩
    rw [hb, hp]

/-! ## Scroll master lemmas -/

theorem scroll_handleWindowEvent (app : Application) (e : WindowEvent) :
    (handleWindowEvent app e).current.scroll_delta =
      match scrollEv e with
      | some y => y
      | none => app.current.scroll_delta := by
  cases e with
  | KeyboardInput c pressed =>
      cases c with
      | none => rfl
      | some code =>
          by_cases h : code ∈ app.current.curr_keys <;>
            cases pressed <;> simp [handleWindowEvent, scrollEv, h]
  | MouseInput b2 pressed => cases b2 <;> rfl
  | MouseWheel d => cases d <;> rfl
  | CursorMoved px py => rfl
  | Resized w h => rfl
  | Other => rfl

theorem scroll_absorbAll (app : Application) (es : List WindowEvent) :
    (absorbAll app es).current.scroll_delta =
      match lastScrollEvent es with
      | some y => y
      | none => app.current.scroll_delta := by
  induction es generalizing app with
  | nil => rfl
  | cons e es ih =>
      rw [absorbAll_cons, ih]
      cases hl : lastScrollEvent es with
      | some y => simp [lastScrollEvent, hl]
      | none => simp [lastScrollEvent, hl, scroll_handleWindowEvent]

/-! ## Preservation lemmas for event absorption -/

theorem mouse_pos_handleWindowEvent (app : Application) (e : WindowEvent) :
    (handleWindowEvent app e).current.mouse_pos = app.current.mouse_pos := by
  cases e with
  | KeyboardInput c pressed =>
      cases c with
      | none => rfl
      | some code =>
          by_cases h : code ∈ app.current.curr_keys <;>
            cases pressed <;> simp [handleWindowEvent, h]
  | MouseInput b2 pressed => cases b2 <;> rfl
  | MouseWheel d => cases d <;> rfl
  | CursorMoved px py => rfl
  | Resized w h => rfl
  | Other => rfl

theorem mouse_pos_absorbAll (app : Application) (es : List WindowEvent) :
    (absorbAll app es).current.mouse_pos = app.current.mouse_pos := by
  induction es generalizing app with
  | nil => rfl
  | cons e es ih =>
      rw [absorbAll_cons, ih, mouse_pos_handleWindowEvent]

theorem seed_handleWindowEvent (app : Application) (e : WindowEvent) :
    (handleWindowEvent app e).current.seed = app.current.seed := by
  cases e with
  | KeyboardInput c pressed =>
      cases c with
      | none => rfl
      | some code =>
          by_cases h : code ∈ app.current.curr_keys <;>
            cases pressed <;> simp [handleWindowEvent, h]
  | MouseInput b2 pressed => cases b2 <;> rfl
  | MouseWheel d => cases d <;> rfl
  | CursorMoved px py => rfl
  | Resized w h => rfl
  | Other => rfl

theorem seed_absorbAll (app : Application) (es : List WindowEvent) :
    (absorbAll app es).current.seed = app.current.seed := by
  induction es generalizing app with
  | nil => rfl
  | cons e es ih =>
      rw [absorbAll_cons, ih, seed_handleWindowEvent]

theorem screenRectOk_handleWindowEvent (app : Application) (e : WindowEvent)
    (h : screenRectOk app) : screenRectOk (handleWindowEvent app e) := by
  cases e with
  | KeyboardInput c pressed =>
      cases c with
      | none => exact h
      | some code =>
          by_cases hc : code ∈ app.current.curr_keys <;>
            cases pressed <;> simpa [screenRectOk, handleWindowEvent, hc] using h
  | MouseInput b2 pressed => cases b2 <;> exact h
  | MouseWheel d => cases d <;> exact h
  | CursorMoved px py => exact h
  | Resized w hh => exact ⟨rfl, rfl, rfl, rfl⟩
  | Other => exact h

theorem screenRectOk_absorbAll (app : Application) (es : List WindowEvent)
    (h : screenRectOk app) : screenRectOk (absorbAll app es) := by
  induction es generalizing app with
  | nil => exact h
  | cons e es ih =>
      rw [absorbAll_cons]
      exact ih _ (screenRectOk_handleWindowEvent app e h)

/-! ## Frame-boundary lemmas -/

theorem boundary_snapshot_button (b : MouseButton) (app : Application) (dt : ℚ) :
    buttonStatus b (mainEventsCleared app dt).1 = buttonStatus b app.current := by
  cases b <;> rfl

theorem boundary_next_button (b : MouseButton) (app : Application) (dt : ℚ) :
    buttonStatus b (mainEventsCleared app dt).2.current =
      collapse (buttonStatus b app.current) := by
  cases b <;> rfl

theorem boundary_seed (app : Application) (dt : ℚ) :
    (mainEventsCleared app dt).2.current.seed = nextSeed app.current.seed := rfl

theorem collapse_fix_of_steady (s : KeyStatus)
    (h : s = KeyStatus.Pressed ∨ s = KeyStatus.Released) : collapse s = s := by
  rcases h with h | h <;> rw [h] <;> rfl

/-- A button whose status is a `collapse` fixed point, over periods that hold
no event for it: every snapshot and the final state keep that status. -/
theorem snapshots_steady (b : MouseButton) (st : KeyStatus)
    (hst : collapse st = st) (ps : List (List WindowEvent × ℚ)) :
    ∀ app : Application, buttonStatus b app.current = st →
      (∀ p ∈ ps, ∀ e ∈ p.1, buttonEv b e = none) →
      (∀ s ∈ snapshots app ps, buttonStatus b s = st) ∧
        buttonStatus b (runPeriods app ps).current = st := by
  induction ps with
  | nil =>
      intro app hb _
      exact ⟨by simp [snapshots], by simpa [runPeriods] using hb⟩
  | cons p ps ih =>
      intro app hb hev
      have habs : buttonStatus b (absorbAll app p.1).current = st := by
        rw [buttonStatus_absorbAll,
          lastButtonEvent_eq_none b p.1 (hev p (List.mem_cons_self p ps))]
        exact hb
      have hsnap : buttonStatus b (runPeriod app p).1 = st := by
        rw [runPeriod, boundary_snapshot_button]; exact habs
      have hnext : buttonStatus b (runPeriod app p).2.current = st := by
        rw [runPeriod, boundary_next_button, habs, hst]
      have hrest := ih (runPeriod app p).2 hnext
        (fun q hq => hev q (List.mem_cons_of_mem p hq))
      refine ⟨?_, ?_⟩
      · intro s hs
        rw [snapshots] at hs
        rcases List.mem_cons.mp hs with h1 | h2
        · rw [h1]; exact hsnap
        · exact hrest.1 s h2
      · rw [runPeriods]
        exact hrest.2

theorem runPeriods_seed (ps : List (List WindowEvent × ℚ)) :
    ∀ app : Application,
      (runPeriods app ps).current.seed = nextSeed^[ps.length] app.current.seed := by
  induction ps with
  | nil => intro app; rfl
  | cons p ps ih =>
      intro app
      rw [runPeriods, ih]
      have hp : (runPeriod app p).2.current.seed = nextSeed app.current.seed := by
        rw [runPeriod, boundary_seed, seed_absorbAll]
      rw [hp, List.length_cons, Function.iterate_succ_apply]

/-! ## The claims -/

/-- C2: `key_pressed(k)` iff `k` in `curr_keys` and not in `prev_keys`;
`key_released(k)` iff the converse membership; `key_held(k)` iff in
`curr_keys`; `key_pressed_or_repeating(k)` iff pressed or in `repeat_keys`;
and pressed and released are never both true for one key in one snapshot. -/
theorem C2_key_query_semantics (s : FrameInputs) (k : ℕ) :
    (s.key_pressed k = true ↔ k ∈ s.curr_keys ∧ k ∉ s.prev_keys)
  ∧ (s.key_released k = true ↔ k ∈ s.prev_keys ∧ k ∉ s.curr_keys)
  ∧ (s.key_held k = true ↔ k ∈ s.curr_keys)
  ∧ (s.key_pressed_or_repeating k = true ↔
      (s.key_pressed k = true ∨ k ∈ s.repeat_keys))
  ∧ ¬(s.key_pressed k = true ∧ s.key_released k = true) := by
  refine ⟨?_, ?_, ?_, ?_, ?_⟩ <;>
    simp [FrameInputs.key_pressed, FrameInputs.key_released,
      FrameInputs.key_held, FrameInputs.key_pressed_or_repeating] <;>
    tauto

/-- C4 counterexample: two scroll events of vertical deltas 1 and 2 within
one accumulation period leave the snapshot's `scroll_delta` at 2, the last
event's delta, not at the sum 1 + 2: the code overwrites, it does not sum. -/
theorem C4_scroll_not_summed_counterexample :
    (runPeriod app0
        ([WindowEvent.MouseWheel (MouseScrollDelta.LineDelta 0 1),
          WindowEvent.MouseWheel (MouseScrollDelta.LineDelta 0 2)], 1)).1.scroll_delta
        = 2
  ∧ (2 : ℚ) ≠ 1 + 2 := by
  constructor
  · rfl
  · norm_num

/-- C4 (amended): every scroll event overwrites `scroll_delta` with its
vertical component (horizontal ignored, both encodings unormalized), so the
snapshot's `scroll_delta` is the vertical delta of the period's last scroll
event, or the value carried into the period (0 after any boundary) when the
period had none. -/
theorem C4_scroll_last_event_wins :
    (∀ (app : Application) (x y : ℚ),
        (handleWindowEvent app
            (WindowEvent.MouseWheel
              (MouseScrollDelta.LineDelta x y))).current.scroll_delta = y
      ∧ (handleWindowEvent app
            (WindowEvent.MouseWheel
              (MouseScrollDelta.PixelDelta x y))).current.scroll_delta = y)
  ∧ (∀ (app : Application) (es : List WindowEvent) (dt : ℚ),
        (runPeriod app (es, dt)).1.scroll_delta
          = (lastScrollEvent es).getD app.current.scroll_delta) := by
  refine ⟨fun app x y => ⟨rfl, rfl⟩, fun app es dt => ?_⟩
  show (absorbAll app es).current.scroll_delta = _
  rw [scroll_absorbAll]
  cases lastScrollEvent es <;> simp

/-- C5: a cursor-motion event overwrites only the raw pointer position,
both axes divided by the vertical resolution, leaving the accumulated
`current` snapshot state untouched; at a boundary the snapshot's
`mouse_delta` is its `mouse_pos` minus the previous snapshot's `mouse_pos`;
and the initial `FrameInputs` has `mouse_delta = (0,0)`. -/
theorem C5_mouse_delta :
    (∀ (app : Application) (px py : ℚ),
        (handleWindowEvent app (WindowEvent.CursorMoved px py)).instant_mouse_pos
            = Vec2.new (px / app.yres) (py / app.yres)
      ∧ (handleWindowEvent app (WindowEvent.CursorMoved px py)).current
            = app.current)
  ∧ (∀ (app : Application) (dt : ℚ),
        (mainEventsCleared app dt).1.mouse_delta
          = Vec2.sub (mainEventsCleared app dt).1.mouse_pos
              app.current.mouse_pos)
  ∧ (∀ (app : Application) (p1 p2 : List WindowEvent × ℚ),
        (runPeriod (runPeriod app p1).2 p2).1.mouse_delta
          = Vec2.sub (runPeriod (runPeriod app p1).2 p2).1.mouse_pos
              (runPeriod app p1).1.mouse_pos)
  ∧ (∀ (a : ℚ) (clockNanos : Option ℕ),
        (FrameInputs.new a clockNanos).mouse_delta = Vec2.new 0 0) := by
  refine ⟨fun app px py => ⟨rfl, rfl⟩, fun app dt => rfl, ?_, fun a c => rfl⟩
  intro app p1 p2
  have hpres : (absorbAll (runPeriod app p1).2 p2.1).current.mouse_pos
      = (runPeriod app p1).1.mouse_pos := by
    rw [mouse_pos_absorbAll]; rfl
  calc (runPeriod (runPeriod app p1).2 p2).1.mouse_delta
      = Vec2.sub (runPeriod (runPeriod app p1).2 p2).1.mouse_pos
          (absorbAll (runPeriod app p1).2 p2.1).current.mouse_pos := rfl
    _ = _ := by rw [hpres]

/-- C6: at every frame boundary, after the snapshot is taken (the snapshot
keeping the accumulated values), the live scroll accumulator is reset to 0
and the live repeat-key set is cleared, unconditionally. -/
theorem C6_transient_reset (app : Application) (dt : ℚ) :
    (mainEventsCleared app dt).2.current.scroll_delta = 0
  ∧ (mainEventsCleared app dt).2.current.repeat_keys = ∅
  ∧ (mainEventsCleared app dt).1.scroll_delta = app.current.scroll_delta
  ∧ (mainEventsCleared app dt).1.repeat_keys = app.current.repeat_keys :=
  ⟨rfl, rfl, rfl, rfl⟩

/-- C7: the per-frame seed advance is `nextSeed` of the previous seed alone,
independent of the period's events and of the boundary's wall-clock `dt`;
after any n periods the seed is the n-th iterate, so two runs of equal
length from equal seeds end with equal seeds. -/
theorem C7_seed_deterministic :
    (∀ (app : Application) (es : List WindowEvent) (dt : ℚ),
        (runPeriod app (es, dt)).2.current.seed = nextSeed app.current.seed)
  ∧ (∀ (app : Application) (ps : List (List WindowEvent × ℚ)),
        (runPeriods app ps).current.seed = nextSeed^[ps.length] app.current.seed)
  ∧ (∀ (app1 app2 : Application) (ps1 ps2 : List (List WindowEvent × ℚ)),
        app1.current.seed = app2.current.seed → ps1.length = ps2.length →
        (runPeriods app1 ps1).current.seed = (runPeriods app2 ps2).current.seed) := by
  refine ⟨?_, ?_, ?_⟩
  · intro app es dt
    rw [runPeriod, boundary_seed, seed_absorbAll]
  · intro app ps
    exact runPeriods_seed ps app
  · intro app1 app2 ps1 ps2 hseed hlen
    rw [runPeriods_seed ps1 app1, runPeriods_seed ps2 app2, hseed, hlen]

/-- C9: if the epoch-duration query fails at startup, the initial seed falls
back to the fixed constant 34123123; otherwise it is the clock duration's
subsecond nanoseconds. -/
theorem C9_seed_clock_fallback :
    (∀ a : ℚ, (FrameInputs.new a none).seed = 34123123)
  ∧ (∀ (a : ℚ) (n : ℕ), (FrameInputs.new a (some n)).seed = n % 1000000000) :=
  ⟨fun _ => rfl, fun _ _ => rfl⟩

theorem collapse_steady (s : KeyStatus) :
    collapse s = KeyStatus.Pressed ∨ collapse s = KeyStatus.Released := by
  cases s
  · exact Or.inl rfl
  · exact Or.inl rfl
  · exact Or.inr rfl
  · exact Or.inr rfl

/-- C1: a press event sets a button's status to `JustPressed` and a release
to `JustReleased` immediately, the period's last event for that button
winning; at a boundary the snapshot reads the accumulated status and the
live status is collapsed `JustPressed -> Pressed`, `JustReleased ->
Released` with the steady states fixed; hence a button pressed once and
then left alone reads `JustPressed` in exactly the next snapshot and
`Pressed` in every later one, and symmetrically for release. -/
theorem C1_button_status_protocol :
    (∀ (app : Application) (b : MouseButton) (pressed : Bool),
        buttonStatus b
            (handleWindowEvent app (WindowEvent.MouseInput b pressed)).current
          = if pressed then KeyStatus.JustPressed else KeyStatus.JustReleased)
  ∧ (∀ (app : Application) (b : MouseButton) (es : List WindowEvent)
        (pressed : Bool), lastButtonEvent b es = some pressed →
        buttonStatus b (absorbAll app es).current
          = if pressed then KeyStatus.JustPressed else KeyStatus.JustReleased)
  ∧ (∀ (app : Application) (dt : ℚ) (b : MouseButton),
        buttonStatus b (mainEventsCleared app dt).1 = buttonStatus b app.current
      ∧ buttonStatus b (mainEventsCleared app dt).2.current
          = collapse (buttonStatus b app.current))
  ∧ (collapse KeyStatus.JustPressed = KeyStatus.Pressed
      ∧ collapse KeyStatus.JustReleased = KeyStatus.Released
      ∧ collapse KeyStatus.Pressed = KeyStatus.Pressed
      ∧ collapse KeyStatus.Released = KeyStatus.Released)
  ∧ (∀ (app : Application) (b : MouseButton) (dt : ℚ)
        (ps : List (List WindowEvent × ℚ)),
        buttonStatus b app.current = KeyStatus.JustPressed →
        (∀ p ∈ ps, ∀ e ∈ p.1, buttonEv b e = none) →
        buttonStatus b (mainEventsCleared app dt).1 = KeyStatus.JustPressed
      ∧ ∀ s ∈ snapshots (mainEventsCleared app dt).2 ps,
          buttonStatus b s = KeyStatus.Pressed)
  ∧ (∀ (app : Application) (b : MouseButton) (dt : ℚ)
        (ps : List (List WindowEvent × ℚ)),
        buttonStatus b app.current = KeyStatus.JustReleased →
        (∀ p ∈ ps, ∀ e ∈ p.1, buttonEv b e = none) →
        buttonStatus b (mainEventsCleared app dt).1 = KeyStatus.JustReleased
      ∧ ∀ s ∈ snapshots (mainEventsCleared app dt).2 ps,
          buttonStatus b s = KeyStatus.Released) := by
  refine ⟨?_, ?_, ?_, ⟨rfl, rfl, rfl, rfl⟩, ?_, ?_⟩
  · intro app b pressed
    rw [buttonStatus_handleWindowEvent]
    simp [buttonEv]
  · intro app b es pressed h
    rw [buttonStatus_absorbAll, h]
  · intro app dt b
    exact ⟨boundary_snapshot_button b app dt, boundary_next_button b app dt⟩
  · intro app b dt ps hjp hev
    refine ⟨by rw [boundary_snapshot_button, hjp], ?_⟩
    have hnext : buttonStatus b (mainEventsCleared app dt).2.current
        = KeyStatus.Pressed := by
      rw [boundary_next_button, hjp]; rfl
    exact (snapshots_steady b KeyStatus.Pressed rfl ps _ hnext hev).1
  · intro app b dt ps hjr hev
    refine ⟨by rw [boundary_snapshot_button, hjr], ?_⟩
    have hnext : buttonStatus b (mainEventsCleared app dt).2.current
        = KeyStatus.Released := by
      rw [boundary_next_button, hjr]; rfl
    exact (snapshots_steady b KeyStatus.Released rfl ps _ hnext hev).1

/-- C1 instantiated: after a left-button press, the next boundary's snapshot
reads `JustPressed` and the snapshot of one further event-free period reads
`Pressed`. -/
theorem C1_button_status_protocol_witness :
    buttonStatus MouseButton.Left (mainEventsCleared appJP 1).1
        = KeyStatus.JustPressed
  ∧ buttonStatus MouseButton.Left
        (runPeriod (mainEventsCleared appJP 1).2 ([], 1)).1
      = KeyStatus.Pressed := by
  have h := C1_button_status_protocol.2.2.2.2.1 appJP MouseButton.Left 1
    [([], 1)] (by decide) (by simp)
  exact ⟨h.1, h.2 (runPeriod (mainEventsCleared appJP 1).2 ([], 1)).1
    (by simp [snapshots])⟩

theorem absorb_press_held (code : ℕ) (m : ℕ) :
    ∀ app : Application, code ∈ app.current.curr_keys →
      ((absorbAll app (List.replicate m
          (WindowEvent.KeyboardInput (some code) true))).current.curr_keys
        = app.current.curr_keys
      ∧ (absorbAll app (List.replicate m
          (WindowEvent.KeyboardInput (some code) true))).current.repeat_keys
        = if m = 0 then app.current.repeat_keys
          else insert code app.current.repeat_keys) := by
  induction m with
  | zero => intro app h; simp [absorbAll]
  | succ m ih =>
      intro app h
      rw [List.replicate_succ, absorbAll_cons]
      have hh : handleWindowEvent app (WindowEvent.KeyboardInput (some code) true)
          = { app with current :=
              { app.current with
                  repeat_keys := insert code app.current.repeat_keys } } := by
        simp [handleWindowEvent, h]
      rw [hh]
      have h2m : code ∈ ({ app with current :=
          { app.current with
              repeat_keys := insert code app.current.repeat_keys } }
            : Application).current.curr_keys := h
      obtain ⟨h1, h2⟩ := ih _ h2m
      refine ⟨h1, ?_⟩
      rw [h2]
      by_cases hm : m = 0 <;> simp [hm, Finset.insert_idem]

theorem absorb_press_from_up (app : Application) (code : ℕ) (k : ℕ)
    (h : code ∉ app.current.curr_keys) (hk : 1 ≤ k) :
    code ∈ (absorbAll app (List.replicate k
        (WindowEvent.KeyboardInput (some code) true))).current.curr_keys
  ∧ (2 ≤ k →
      (absorbAll app (List.replicate k
          (WindowEvent.KeyboardInput (some code) true))).current.repeat_keys
        = insert code app.current.repeat_keys) := by
  obtain ⟨m, rfl⟩ : ∃ m, k = m + 1 := ⟨k - 1, (Nat.succ_pred_eq_of_pos hk).symm⟩
  rw [List.replicate_succ, absorbAll_cons]
  have hh : handleWindowEvent app (WindowEvent.KeyboardInput (some code) true)
      = { app with current :=
          { app.current with
              curr_keys := insert code app.current.curr_keys } } := by
    simp [handleWindowEvent, h]
  rw [hh]
  have hmem : code ∈ ({ app with current :=
      { app.current with curr_keys := insert code app.current.curr_keys } }
        : Application).current.curr_keys := by
    simp
  obtain ⟨h1, h2⟩ := absorb_press_held code m _ hmem
  constructor
  · rw [h1]; simp
  · intro h2k
    have hm : m ≠ 0 := by omega
    rw [h2, if_neg hm]

/-- C3: a key press while the code is held adds it to `repeat_keys` leaving
`curr_keys` unchanged; a press while not held inserts it into `curr_keys`;
a release removes it, a no-op when absent; consequently n back-to-back
presses of one code from a not-held start keep the code in `curr_keys`
throughout and put it into `repeat_keys` exactly once (set insertion). -/
theorem C3_key_event_absorption :
    (∀ (app : Application) (code : ℕ), code ∈ app.current.curr_keys →
        (handleWindowEvent app
            (WindowEvent.KeyboardInput (some code) true)).current.repeat_keys
          = insert code app.current.repeat_keys
      ∧ (handleWindowEvent app
            (WindowEvent.KeyboardInput (some code) true)).current.curr_keys
          = app.current.curr_keys)
  ∧ (∀ (app : Application) (code : ℕ), code ∉ app.current.curr_keys →
        (handleWindowEvent app
            (WindowEvent.KeyboardInput (some code) true)).current.curr_keys
          = insert code app.current.curr_keys
      ∧ (handleWindowEvent app
            (WindowEvent.KeyboardInput (some code) true)).current.repeat_keys
          = app.current.repeat_keys)
  ∧ (∀ (app : Application) (code : ℕ),
        (handleWindowEvent app
            (WindowEvent.KeyboardInput (some code) false)).current.curr_keys
          = app.current.curr_keys.erase code
      ∧ (code ∉ app.current.curr_keys →
          (handleWindowEvent app
              (WindowEvent.KeyboardInput (some code) false)).current.curr_keys
            = app.current.curr_keys))
  ∧ (∀ (app : Application) (code n : ℕ), code ∉ app.current.curr_keys →
        (2 ≤ n →
          (absorbAll app (List.replicate n
              (WindowEvent.KeyboardInput (some code) true))).current.repeat_keys
            = insert code app.current.repeat_keys)
      ∧ (∀ k, 1 ≤ k → k ≤ n →
          code ∈ (absorbAll app (List.replicate k
              (WindowEvent.KeyboardInput (some code) true))).current.curr_keys)) := by
  refine ⟨?_, ?_, ?_, ?_⟩
  · intro app code h
    constructor <;> simp [handleWindowEvent, h]
  · intro app code h
    constructor <;> simp [handleWindowEvent, h]
  · intro app code
    refine ⟨rfl, fun h => ?_⟩
    show app.current.curr_keys.erase code = app.current.curr_keys
    exact Finset.erase_eq_self.mpr h
  · intro app code n h
    constructor
    · intro h2n
      exact (absorb_press_from_up app code n h (by omega)).2 h2n
    · intro k hk1 _
      exact (absorb_press_from_up app code k h hk1).1

/-- C3 instantiated: two presses of key 7 from the startup state leave 7 in
`curr_keys` after the first press and put 7 into `repeat_keys` once. -/
theorem C3_key_event_absorption_witness :
    (absorbAll app0 (List.replicate 2
        (WindowEvent.KeyboardInput (some 7) true))).current.repeat_keys
      = insert 7 app0.current.repeat_keys
  ∧ 7 ∈ (absorbAll app0 (List.replicate 1
        (WindowEvent.KeyboardInput (some 7) true))).current.curr_keys := by
  have h := C3_key_event_absorption.2.2.2 app0 7 2 (by decide)
  exact ⟨h.1 (by norm_num), h.2 1 (by norm_num) (by norm_num)⟩

theorem screenRectOk_boundary (app : Application) (dt : ℚ)
    (h : screenRectOk app) : screenRectOk (mainEventsCleared app dt).2 := h

theorem screenRectOk_runPeriods (ps : List (List WindowEvent × ℚ)) :
    ∀ app : Application, screenRectOk app → screenRectOk (runPeriods app ps) := by
  induction ps with
  | nil => intro app h; exact h
  | cons p ps ih =>
      intro app h
      rw [runPeriods]
      exact ih _ (screenRectOk_boundary _ p.2 (screenRectOk_absorbAll app p.1 h))

/-- C8: the screen rect has origin (0,0) and height 1 from startup on, its
width is the live width/height aspect ratio, the invariant survives every
event and boundary; a resize to 800 by 600 sets the rect to width 800/600 =
4/3 and height 1, also in the following snapshot. -/
theorem C8_screen_rect_invariant :
    (∀ clockNanos : Option ℕ, screenRectOk (Application.new clockNanos))
  ∧ (∀ (app : Application) (e : WindowEvent),
        screenRectOk app → screenRectOk (handleWindowEvent app e))
  ∧ (∀ (app : Application) (dt : ℚ), screenRectOk app →
        screenRectOk (mainEventsCleared app dt).2
      ∧ (mainEventsCleared app dt).1.screen_rect = app.current.screen_rect)
  ∧ (∀ (clockNanos : Option ℕ) (ps : List (List WindowEvent × ℚ)),
        screenRectOk (runPeriods (Application.new clockNanos) ps))
  ∧ (∀ app : Application,
        (handleWindowEvent app (WindowEvent.Resized 800 600)).current.screen_rect
          = Rect.new 0 0 (800 / 600) 1)
  ∧ (∀ (app : Application) (dt : ℚ),
        (runPeriod app ([WindowEvent.Resized 800 600], dt)).1.screen_rect
          = Rect.new 0 0 (4 / 3) 1) := by
  refine ⟨?_, ?_, ?_, ?_, ?_, ?_⟩
  · intro clockNanos
    exact ⟨rfl, rfl, rfl, rfl⟩
  · intro app e h
    exact screenRectOk_handleWindowEvent app e h
  · intro app dt h
    exact ⟨screenRectOk_boundary app dt h, rfl⟩
  · intro clockNanos ps
    exact screenRectOk_runPeriods ps _ ⟨rfl, rfl, rfl, rfl⟩
  · intro app
    rfl
  · intro app dt
    show Rect.new 0 0 ((800 : ℚ) / 600) 1 = Rect.new 0 0 (4 / 3) 1
    simp only [Rect.new, Rect.mk.injEq]
    norm_num

/-- C8 instantiated: the invariant holds right after a resize to 800 by 600
from the startup state. -/
theorem C8_screen_rect_invariant_witness :
    screenRectOk
      (handleWindowEvent (Application.new none) (WindowEvent.Resized 800 600)) :=
  C8_screen_rect_invariant.2.1 (Application.new none)
    (WindowEvent.Resized 800 600) (C8_screen_rect_invariant.1 none)

/-- C10: the collapse is idempotent with image inside the steady statuses,
every button is steady right after a boundary, and a snapshot can only show
a `Just` status when the preceding period held an event for that button. -/
theorem C10_collapse_idempotent_steady :
    (∀ s : KeyStatus, collapse (collapse s) = collapse s)
  ∧ (∀ s : KeyStatus,
        collapse s = KeyStatus.Pressed ∨ collapse s = KeyStatus.Released)
  ∧ (∀ (app : Application) (dt : ℚ) (b : MouseButton),
        buttonStatus b (mainEventsCleared app dt).2.current = KeyStatus.Pressed
      ∨ buttonStatus b (mainEventsCleared app dt).2.current = KeyStatus.Released)
  ∧ (∀ (app : Application) (b : MouseButton) (es : List WindowEvent) (dt : ℚ),
        (buttonStatus b app.current = KeyStatus.Pressed
          ∨ buttonStatus b app.current = KeyStatus.Released) →
        (buttonStatus b (mainEventsCleared (absorbAll app es) dt).1
            = KeyStatus.JustPressed
          ∨ buttonStatus b (mainEventsCleared (absorbAll app es) dt).1
            = KeyStatus.JustReleased) →
        ∃ pressed : Bool, WindowEvent.MouseInput b pressed ∈ es) := by
  refine ⟨fun s => by cases s <;> rfl, collapse_steady, ?_, ?_⟩
  · intro app dt b
    rw [boundary_next_button]
    exact collapse_steady _
  · intro app b es dt hsteady hjust
    cases hmatch : lastButtonEvent b es with
    | none =>
        have hs : buttonStatus b (mainEventsCleared (absorbAll app es) dt).1
            = buttonStatus b app.current := by
          rw [boundary_snapshot_button, buttonStatus_absorbAll, hmatch]
        rw [hs] at hjust
        rcases hsteady with h | h <;> rw [h] at hjust <;>
          rcases hjust with h2 | h2 <;> simp at h2
    | some pressed =>
        obtain ⟨e, he, hbe⟩ := lastButtonEvent_eq_some b es pressed hmatch
        have heq := buttonEv_eq_some b e pressed hbe
        exact ⟨pressed, heq ▸ he⟩

/-- C10 instantiated: a left-button `Just` status in the snapshot after a
period that absorbed a left press forces such an event to exist in the
period's list. -/
theorem C10_collapse_idempotent_steady_witness :
    ∃ pressed : Bool,
      WindowEvent.MouseInput MouseButton.Left pressed
        ∈ [WindowEvent.MouseInput MouseButton.Left true] :=
  C10_collapse_idempotent_steady.2.2.2 app0 MouseButton.Left
    [WindowEvent.MouseInput MouseButton.Left true] 1
    (Or.inr (by decide)) (Or.inl (by decide))

end Kapp
